import Mathlib

/-!
Shallow embedding of the spectrogram-visualizer core
(src/services/utils/math-util.ts, src/services/spectrogram.ts,
src/services/spectrogram-render.ts, src/services/processor.ts,
src/services/processor copy.ts, the compute worker and
src/services/index.ts), together with proofs deciding the claims about it.

Conventions of the embedding:
* JS numbers that hold integer quantities (array lengths, indices, counts)
  are modelled as `Nat`/`Int`; sample values and other real-valued
  quantities are modelled as `ℚ` (exact arithmetic) except for the mel
  conversions, which are genuinely transcendental and are modelled on `ℝ`.
* JS division `a / b` with `b ≠ 0` agrees with rational division; for
  `b = 0` JS produces `NaN`/`±Infinity`.  Where a zero denominator can
  actually occur in the code, the division is modelled as `Option ℚ`
  (`none` standing for the non-finite JS result).
* `Float32Array` contents are modelled as `List ℚ`; `arr.set(block, off)`
  is an element-wise copy, `arr.subarray(a, b)` is `(drop a).take (b-a)`.
-/

namespace SpecViz

/-! ### math-util.ts -/

/-- `hzToMel(hz) = 2595 * Math.log10(1 + hz / 700)` (math-util.ts line 1-3),
over the reals. -/
noncomputable def hzToMel (hz : ℝ) : ℝ :=
  2595 * Real.logb 10 (1 + hz / 700)

/-- `melToHz(mel) = 700 * (10 ** (mel / 2595) - 1)` (math-util.ts line 5-7),
over the reals. -/
noncomputable def melToHz (mel : ℝ) : ℝ :=
  700 * ((10 : ℝ) ^ (mel / 2595) - 1)

/-- `lerp(a, b, t) = a + t * (b - a)` (math-util.ts line 17-19). -/
def lerp (a b t : ℚ) : ℚ :=
  a + t * (b - a)

/-- Model of JS number division restricted to finite results: JS `a / b`
equals the rational `a / b` whenever `b ≠ 0`, and produces a non-finite
value (`NaN` for `0/0`, `±Infinity` otherwise), modelled `none`, when
`b = 0`. -/
def jsDiv (a b : ℚ) : Option ℚ :=
  if b = 0 then none else some (a / b)

/-- `inverseLerp(a, b, n) = (a - n) / (a - b)` (math-util.ts line 21-23) with
JS division semantics: `none` when the denominator `a - b` is zero. -/
def inverseLerp (a b n : ℚ) : Option ℚ :=
  jsDiv (a - n) (a - b)

/-- The per-row scale amount of `generateSpectrogramForSingleFrame`
(spectrogram.ts line 52-53): `inverseLerp(0, scaleSize - 1, j)` for the row
index `j`. -/
def scaleAmount (scaleSize j : ℕ) : Option ℚ :=
  inverseLerp 0 ((scaleSize : ℚ) - 1) (j : ℚ)

/-- The raw window count `Math.ceil((samplesLength - windowSize) /
windowStepSize + 1)` shared by math-util.ts `getNumWindows` (line 37-46) and
spectrogram.ts line 119. -/
def numWindowsRaw (samplesLength windowSize windowStepSize : ℕ) : ℤ :=
  Int.ceil ((((samplesLength : ℚ) - (windowSize : ℚ)) / (windowStepSize : ℚ)) + 1)

/-- `getNumWindows` (math-util.ts line 37-46): `Math.max(0, Math.ceil(...))`. -/
def getNumWindows (samplesLength windowSize windowStepSize : ℕ) : ℤ :=
  max 0 (numWindowsRaw samplesLength windowSize windowStepSize)

/-! ### spectrogram.ts : generateSpectrogram

The FFT (external `jsfft` dependency) and the Blackman-Harris coefficient
function are transcendental-valued; they are abstracted as parameters
`amp` (the amplitude computed for a row from the windowed frame,
spectrogram.ts line 51-84, closing over `minFrequencyHz`, `maxFrequencyHz`,
`sampleRate` and `scale`) and `bh` (the `blackmanHarris(i, N)` coefficient).
No claim depends on the numeric values these produce. -/

/-- Mutable state of `generateSpectrogram` (spectrogram.ts line 93-193): the
caller's `samples` array, the scratch `windowSamples` buffer and the
`result` buffer.  Every assignment in the source targets `windowSamples` or
`result`; the embedding records each write as a `List.set` on the
corresponding field. -/
structure GenState where
  samples : List ℚ
  windowSamples : List ℚ
  result : List ℚ
deriving DecidableEq

/-- The in-place windowing loop `windowSamples[i] *= blackmanHarris(i,
windowSamples.length)` (spectrogram.ts line 47-49). -/
def windowApply (bh : ℕ → ℕ → ℚ) (ws : List ℚ) : List ℚ :=
  (List.range ws.length).foldl (fun l i => l.set i (l.getD i 0 * bh i ws.length)) ws

/-- `generateSpectrogramForSingleFrame` (spectrogram.ts line 36-86): windows
the frame in place, then writes the amplitude of each row `j < scaleSize` to
`result[resultBufferIndex + j]`.  The FFT and the frequency-to-bin mapping
producing each amplitude are abstracted as `amp`. -/
def generateSpectrogramForSingleFrame (bh : ℕ → ℕ → ℚ) (amp : List ℚ → ℕ → ℚ)
    (st : GenState) (resultBufferIndex scaleSize : ℕ) : GenState :=
  let ws := windowApply bh st.windowSamples
  let res := (List.range scaleSize).foldl
    (fun r j => r.set (resultBufferIndex + j) (amp ws j)) st.result
  { st with windowSamples := ws, result := res }

/-- The window-fill loop (spectrogram.ts line 152-163): `windowSamples[j]`
becomes `samples[i + j]`, or `0` when `i + j` falls outside
`[samplesStart, samplesStart + samplesLength)`. -/
def fillWindow (samples ws : List ℚ) (samplesStart : ℤ) (samplesLength : ℕ)
    (i : ℤ) (windowSize : ℕ) : List ℚ :=
  (List.range windowSize).foldl
    (fun l (j : ℕ) =>
      let sampleIdx : ℤ := i + (j : ℤ)
      l.set j
        (if sampleIdx < samplesStart ∨ samplesStart + (samplesLength : ℤ) ≤ sampleIdx
         then 0 else samples.getD sampleIdx.toNat 0))
    ws

/-- spectrogram.ts line 119-122: `Math.ceil(...)` followed by clamping
negative values to zero. -/
def numWindowsClamped (samplesLength windowSize windowStepSize : ℕ) : ℤ :=
  let n := numWindowsRaw samplesLength windowSize windowStepSize
  if n < 0 then 0 else n

/-- `Math.floor(windowSize / windowStepSize)` (spectrogram.ts line 127);
for positive `windowStepSize` this is natural division. -/
def additionalWindows (windowSize windowStepSize : ℕ) : ℕ :=
  windowSize / windowStepSize

/-- The final window count after the edge-padding additions of
spectrogram.ts line 125-137. -/
def paddedNumWindows (samplesLength windowSize windowStepSize : ℕ)
    (isStart isEnd : Bool) : ℕ :=
  (numWindowsClamped samplesLength windowSize windowStepSize).toNat
    + (if isStart then additionalWindows windowSize windowStepSize else 0)
    + (if isEnd then additionalWindows windowSize windowStepSize else 0)

/-- The effective start index `startIdx` after the `isStart` shift of
spectrogram.ts line 123-132. -/
def startIdxOf (samplesStart : ℤ) (windowSize windowStepSize : ℕ)
    (isStart : Bool) : ℤ :=
  samplesStart -
    (if isStart then (additionalWindows windowSize windowStepSize : ℤ) * (windowStepSize : ℤ)
     else 0)

/-- Result record of `generateSpectrogram` (spectrogram.ts line 178-192),
extended with the caller's `samples` array as it stands after the call so
that the absence of writes to it is expressible. -/
structure SpectrogramResult where
  windowCount : ℕ
  spectrogramData : List ℚ
  samplesAfter : List ℚ
deriving DecidableEq

/-- `generateSpectrogram` (spectrogram.ts line 93-193).  `scaleSizeOpt`
models the optional `scaleSize`; its default `windowSize / 2` is natural
division (`windowSize` is even in every call of the program).  The source's
frame loop runs while `windowIdx < numWindows * scaleSize` with `windowIdx`
stepping by `scaleSize`, i.e. `numWindows` iterations, except that a zero
`scaleSize` makes the bound `0` and the loop run zero times.
`minFrequencyHz`, `maxFrequencyHz`, `sampleRate` and `scale` influence only
the abstracted amplitude `amp` (and the echoed options, not modelled). -/
def generateSpectrogram (bh : ℕ → ℕ → ℚ) (amp : List ℚ → ℕ → ℚ)
    (samples : List ℚ) (samplesStart : ℤ) (samplesLength : ℕ)
    (isStart isEnd : Bool) (windowSize windowStepSize : ℕ)
    (scaleSizeOpt : Option ℕ) : SpectrogramResult :=
  let scaleSize := scaleSizeOpt.getD (windowSize / 2)
  let numWindows := paddedNumWindows samplesLength windowSize windowStepSize isStart isEnd
  let startIdx := startIdxOf samplesStart windowSize windowStepSize isStart
  let numIters := if scaleSize = 0 then 0 else numWindows
  let init : GenState :=
    { samples := samples
      windowSamples := List.replicate windowSize 0
      result := List.replicate (scaleSize * numWindows) 0 }
  let final := (List.range numIters).foldl
    (fun st (w : ℕ) =>
      let st1 := { st with
        windowSamples :=
          fillWindow st.samples st.windowSamples samplesStart samplesLength
            (startIdx + (w : ℤ) * (windowStepSize : ℤ)) windowSize }
      generateSpectrogramForSingleFrame bh amp st1 (w * scaleSize) scaleSize)
    init
  { windowCount := numWindows
    spectrogramData := final.result
    samplesAfter := final.samples }

/-! ### Typed-array block primitives -/

/-- Element-wise model of `target.set(block, offset)` on a `Float32Array`:
`target[offset + t] = block[t]` for each `t`.  (JS throws when the copy
would run past the end of `target`; all uses in the embedded code stay in
bounds, where the two agree.) -/
def setBlock {α : Type} : List α → ℕ → List α → List α
  | l, _, [] => l
  | l, offset, a :: as => setBlock (l.set offset a) (offset + 1) as

/-- `arr.subarray(offset, offset + count)`. -/
def subBlock {α : Type} (l : List α) (offset count : ℕ) : List α :=
  (l.drop offset).take count

/-! ### spectrogram-render.ts : Circular2DDataBuffer -/

/-- `Circular2DDataBuffer` (spectrogram-render.ts line 15-219).  The JS
`mod(x, y) = ((x % y) + y) % y` helper is applied only to non-negative
arguments in these methods, where it coincides with `Nat.mod`. -/
structure Circular2DDataBuffer (α : Type) where
  numColumns : ℕ
  numRows : ℕ
  elementSize : ℕ
  startIndex : ℕ
  currentLength : ℕ
  bufferData : List α
deriving DecidableEq

namespace Circular2DDataBuffer

/-- The constructor called with a `TypedArray` constructor: zero storage of
`numColumns * numRows * elementSize` elements, `startIndex` and
`currentLength` defaulting to `0`. -/
def mk0 {α : Type} [Zero α] (numColumns numRows elementSize : ℕ) :
    Circular2DDataBuffer α :=
  { numColumns := numColumns
    numRows := numRows
    elementSize := elementSize
    startIndex := 0
    currentLength := 0
    bufferData := List.replicate (numColumns * numRows * elementSize) (0 : α) }

/-- `enqueue(newData)` (spectrogram-render.ts line 67-99).
`numNewColumns = Math.floor(newData.length / (elementSize * numRows))`;
each column `i` is copied from `newData.subarray(i * numRows, (i+1) *
numRows)` to physical column `mod(startIndex + currentLength + i,
numColumns)` at offset `targetIndex * numRows`; then `currentLength` grows
and, past capacity, `startIndex` advances and `currentLength` is capped. -/
def enqueue {α : Type} (b : Circular2DDataBuffer α) (newData : List α) :
    Circular2DDataBuffer α :=
  let numNewColumns := newData.length / (b.elementSize * b.numRows)
  let data := (List.range numNewColumns).foldl
    (fun d i =>
      let targetIndex := (b.startIndex + b.currentLength + i) % b.numColumns
      setBlock d (targetIndex * b.numRows) (subBlock newData (i * b.numRows) b.numRows))
    b.bufferData
  let len := b.currentLength + numNewColumns
  if b.numColumns < len then
    { b with
      bufferData := data
      startIndex := (b.startIndex + len - b.numColumns) % b.numColumns
      currentLength := b.numColumns }
  else
    { b with bufferData := data, currentLength := len }

/-- `resizeWidth(newNumColumns)` (spectrogram-render.ts line 102-138): no-op
when the width is unchanged; otherwise copies the most recent
`min(currentLength, newNumColumns)` columns into fresh zeroed storage,
caps `currentLength` and resets `startIndex` to `0`. -/
def resizeWidth {α : Type} [Zero α] (b : Circular2DDataBuffer α)
    (newNumColumns : ℕ) : Circular2DDataBuffer α :=
  if newNumColumns = b.numColumns then b
  else
    let k := min b.currentLength newNumColumns
    let newBufferData := (List.range k).foldl
      (fun d i =>
        let newIndex := k - 1 - i
        let oldIndex := (b.startIndex + b.currentLength - 1 - i) % b.numColumns
        setBlock d (newIndex * b.numRows) (subBlock b.bufferData (oldIndex * b.numRows) b.numRows))
      (List.replicate (newNumColumns * b.numRows * b.elementSize) (0 : α))
    { numColumns := newNumColumns
      numRows := b.numRows
      elementSize := b.elementSize
      startIndex := 0
      currentLength := if newNumColumns ≤ b.currentLength then newNumColumns else b.currentLength
      bufferData := newBufferData }

/-- The stored content of physical column `c`: the `numRows` consecutive
elements at offset `c * numRows`, the layout every read and write of the
class uses (`enqueue`, `resizeWidth`, `printRow`). -/
def column {α : Type} (b : Circular2DDataBuffer α) (c : ℕ) : List α :=
  subBlock b.bufferData (c * b.numRows) b.numRows

/-- The logical (time-ordered) column `i`, `0` oldest: physical column
`(startIndex + i) mod numColumns`. -/
def liveColumn {α : Type} (b : Circular2DDataBuffer α) (i : ℕ) : List α :=
  b.column ((b.startIndex + i) % b.numColumns)

end Circular2DDataBuffer

/-- The `i`-th whole input column of `newData` under the storage layout the
class actually uses (`numRows` elements per column). -/
def inputColumn {α : Type} (numRows : ℕ) (newData : List α) (i : ℕ) : List α :=
  subBlock newData (i * numRows) numRows

/-- Modelled from the spec (data model, §3): the claimed layout in which one
column of the flat storage occupies `numRows * elementSize` consecutive
elements — the reading under which `enqueue` would have to append *whole*
columns of `newData`.  Used to compare the claimed behaviour with the code's. -/
def specStoredColumn {α : Type} (b : Circular2DDataBuffer α) (c : ℕ) : List α :=
  subBlock b.bufferData (c * (b.numRows * b.elementSize)) (b.numRows * b.elementSize)

/-- Modelled from the spec (§4.5): the `i`-th whole column of `newData` when
columns carry `numRows * elementSize` elements, matching the claimed count
`floor(len(newData) / (numRows * elementSize))`. -/
def specInputColumn {α : Type} (numRows elementSize : ℕ) (newData : List α)
    (i : ℕ) : List α :=
  subBlock newData (i * (numRows * elementSize)) (numRows * elementSize)

/-! ### processor copy.ts / processor.ts : sample ring buffers -/

/-- Total number of samples held by a chunk list. -/
def totalLen {α : Type} (buffer : List (List α)) : ℕ :=
  (buffer.map List.length).sum

/-- The eviction loop of `CircularDataBuffer.push` (processor copy.ts line
21-24): `while (currentSize > maxSize)` dequeue the oldest chunk and
subtract its length.  (The source would fault dequeueing an empty queue;
that point is unreachable because `currentSize` is the total of the queued
chunk lengths, which the empty-queue case of the model reflects.) -/
def evict {α : Type} (maxSize : ℕ) : List (List α) → ℕ → List (List α) × ℕ
  | [], currentSize => ([], currentSize)
  | c :: rest, currentSize =>
    if currentSize ≤ maxSize then (c :: rest, currentSize)
    else evict maxSize rest (currentSize - c.length)

/-- `CircularDataBuffer.push(data)` (processor copy.ts line 18-25): enqueue
the chunk, grow `currentSize`, then evict whole chunks while over
`maxSize`. -/
def push {α : Type} (maxSize : ℕ) (st : List (List α) × ℕ) (data : List α) :
    List (List α) × ℕ :=
  evict maxSize (st.1 ++ [data]) (st.2 + data.length)

/-- A sequence of pushes into an initially empty queue-backed buffer. -/
def pushMany {α : Type} (maxSize : ℕ) (chunks : List (List α)) :
    List (List α) × ℕ :=
  chunks.foldl (push maxSize) ([], 0)

/-- `CircularDataBuffer.push(data)` of processor.ts line 19-29 (the
fixed-chunk variant): throws (`none`) unless `data.length === bufferSize`;
appends the chunk and, when `capacity < buffers.length * bufferSize`,
splices away the first `buffers.length - capacity / bufferSize + 1` chunks
(JS computes that count with float division and `splice` truncates it
toward zero; it is positive whenever the splice runs). -/
def pushBlocks {α : Type} (capacity bufferSize : ℕ) (buffers : List (List α))
    (data : List α) : Option (List (List α)) :=
  if data.length ≠ bufferSize then none
  else
    let bs := buffers ++ [data]
    if capacity < bs.length * bufferSize then
      let deleteCount : ℕ :=
        (Int.floor ((bs.length : ℚ) - (capacity : ℚ) / (bufferSize : ℚ) + 1)).toNat
      some (bs.drop deleteCount)
    else some bs

/-- A sequence of pushes into an initially empty fixed-chunk buffer;
`none` as soon as one chunk has the wrong size. -/
def pushBlocksMany {α : Type} (capacity bufferSize : ℕ)
    (chunks : List (List α)) : Option (List (List α)) :=
  chunks.foldlM (pushBlocks capacity bufferSize) []

/-- `depppCircularDataBuffer.shift(size)` loop (processor.ts line 64-81).
State: queued chunks, `currentSize`, the output `data` array and `dataIdx`.
A chunk that fits is copied whole and `dataIdx` advances; otherwise its
first `size - dataIdx` samples are copied, the remainder is pushed to the
*back* of the queue, and — as in the source — `dataIdx` is not advanced. -/
def shiftLoop {α : Type} (size : ℕ) : List (List α) → ℕ → List α → ℕ →
    List α × List (List α) × ℕ
  | [], currentSize, data, _ => (data, [], currentSize)
  | currentData :: rest, currentSize, data, dataIdx =>
    if h : dataIdx < size then
      let cur1 := currentSize - currentData.length
      if dataIdx + currentData.length ≤ size then
        shiftLoop size rest cur1 (setBlock data dataIdx currentData)
          (dataIdx + currentData.length)
      else
        shiftLoop size (rest ++ [currentData.drop (size - dataIdx)])
          (cur1 + (currentData.length - (size - dataIdx)))
          (setBlock data dataIdx (currentData.take (size - dataIdx))) dataIdx
    else (data, currentData :: rest, currentSize)
  termination_by buffer currentSize data dataIdx => 2 * totalLen buffer + buffer.length
  decreasing_by
  · simp only [totalLen, List.map_cons, List.sum_cons, List.length_cons]
    omega
  · simp only [totalLen, List.map_append, List.map_cons, List.sum_append,
      List.sum_cons, List.length_append, List.length_cons, List.map_nil,
      List.sum_nil, List.length_drop, List.length_nil]
    omega

/-- `depppCircularDataBuffer.shift(size)` (processor.ts line 64-81): runs
the loop on a fresh zeroed output of length `size`, returning the output
and the remaining queue state. -/
def shift {α : Type} [Zero α] (size : ℕ) (buffer : List (List α))
    (currentSize : ℕ) : List α × List (List α) × ℕ :=
  shiftLoop size buffer currentSize (List.replicate size (0 : α)) 0

/-- `CircularDataBuffer.shift(size)` loop of processor copy.ts line 30-39:
like the above, but a chunk that does not fit whole is dropped — it has
already been dequeued and `currentSize` reduced when the loop breaks. -/
def shiftBreakLoop {α : Type} (size : ℕ) : List (List α) → ℕ → List α → ℕ →
    List α × List (List α) × ℕ
  | [], currentSize, data, _ => (data, [], currentSize)
  | currentData :: rest, currentSize, data, dataIdx =>
    if dataIdx < size then
      let cur1 := currentSize - currentData.length
      if dataIdx + currentData.length ≤ size then
        shiftBreakLoop size rest cur1 (setBlock data dataIdx currentData)
          (dataIdx + currentData.length)
      else (data, rest, cur1)
    else (data, currentData :: rest, currentSize)

/-- `CircularDataBuffer.shift(size)` (processor copy.ts line 27-41). -/
def shiftBreak {α : Type} [Zero α] (size : ℕ) (buffer : List (List α))
    (currentSize : ℕ) : List α × List (List α) × ℕ :=
  shiftBreakLoop size buffer currentSize (List.replicate size (0 : α)) 0

/-! ### the compute worker and SpectrogramVisualizer.updateSpectrogramBuffer -/

/-- Response of the compute-spectrogram worker (worker.ts line 19-43): on
success a payload carrying the window count, the magnitude buffer and the
(transferred-back) input; on a thrown error a message-only response with no
spectrogram data. -/
inductive WorkerResponse where
  | payload (spectrogramWindowCount : ℕ) (spectrogramBuffer : List ℚ) (inputBuffer : List ℚ)
  | failure (message : String)
deriving DecidableEq

/-- The `ACTION_COMPUTE_SPECTROGRAM` branch of the worker's `onmessage`
(worker.ts line 15-45): the `try` block posts the payload, the `catch`
block posts only the error. -/
def workerOnMessage (run : Unit → Except String (ℕ × List ℚ × List ℚ)) :
    WorkerResponse :=
  match run () with
  | Except.ok (wc, sd, inp) => WorkerResponse.payload wc sd inp
  | Except.error e => WorkerResponse.failure e

/-- The per-channel visualizer state touched by
`SpectrogramVisualizer.updateSpectrogramBuffer` (services/index.ts line
82-111): the spectrogram ring buffer and the `imageDirty` flag.  (The
`renderer.updateParameters` call preceding the `try` block touches only the
GPU renderer, which is outside this state.) -/
structure VisState where
  spectrogramBuffer : Circular2DDataBuffer ℚ
  imageDirty : Bool
deriving DecidableEq

/-- `updateSpectrogramBuffer` (services/index.ts line 89-110) as a function
of the settled compute dispatch (`Except.ok (spectrogramData, input)` for a
fulfilled `offThreadGenerateSpectrogram`, `Except.error` for a rejected
one): on success enqueue the new columns and mark the image dirty, on
failure clear the dirty flag and rethrow. -/
def updateSpectrogramBuffer (st : VisState)
    (computed : Except String (List ℚ × List ℚ)) :
    Except String (List ℚ) × VisState :=
  match computed with
  | Except.ok (spectrogramData, input) =>
    (Except.ok input,
     { st with
       spectrogramBuffer := st.spectrogramBuffer.enqueue spectrogramData
       imageDirty := true })
  | Except.error e =>
    (Except.error ("Failed to generate spectrogram: " ++ e),
     { st with imageDirty := false })

/-! ## Theorems -/

/-! ### C6 : mel round-trip -/

/-- Claim C6: for every `x ≥ 0`, `melToHz (hzToMel x) = x` — the mel-scale
conversion round-trips exactly over the reals. -/
theorem melToHz_hzToMel (x : ℝ) (hx : 0 ≤ x) : melToHz (hzToMel x) = x := by
  unfold melToHz hzToMel
  have h70 : (0 : ℝ) < 1 + x / 700 := by positivity
  have h1 : 2595 * Real.logb 10 (1 + x / 700) / 2595 = Real.logb 10 (1 + x / 700) := by
    field_simp
  rw [h1, Real.rpow_logb (by norm_num) (by norm_num) h70]
  ring

/-- Witness for C6 at `x = 0`. -/
theorem melToHz_hzToMel_witness : (0 : ℝ) ≤ 0 ∧ melToHz (hzToMel 0) = 0 :=
  ⟨le_refl 0, melToHz_hzToMel 0 (le_refl 0)⟩

/-! ### C5 : per-row scale amount -/

/-- Counterexample to claim C5 as stated: at `scaleRows = 1` (row `j = 0`)
the code computes `inverseLerp(0, 0, 0) = 0/0`, which is `NaN` in JS
(modelled `none`), not `0`. -/
theorem scaleAmount_one_not_zero : ¬ scaleAmount 1 0 = some 0 := by
  simp [scaleAmount, inverseLerp, jsDiv]

/-- Claim C5, amended: for `scaleRows ≥ 2` the scale amount of row `j`
equals `j / (scaleRows - 1)`; at `scaleRows = 1` the division the code
performs is `0/0` and yields no finite value. -/
theorem scaleAmount_eq (scaleSize j : ℕ) (h : 2 ≤ scaleSize) :
    scaleAmount scaleSize j = some ((j : ℚ) / ((scaleSize : ℚ) - 1)) := by
  have hs : (2 : ℚ) ≤ (scaleSize : ℚ) := by exact_mod_cast h
  have hne : (0 : ℚ) - ((scaleSize : ℚ) - 1) ≠ 0 := by
    intro hcontra
    have : (scaleSize : ℚ) = 1 := by linarith
    linarith
  unfold scaleAmount inverseLerp jsDiv
  rw [if_neg hne]
  congr 1
  rw [zero_sub, zero_sub, neg_div_neg_eq]

/-- Witness for the amended C5 at `scaleRows = 3`, `j = 1`. -/
theorem scaleAmount_eq_witness :
    2 ≤ 3 ∧ scaleAmount 3 1 = some ((1 : ℚ) / ((3 : ℚ) - 1)) :=
  ⟨by norm_num, scaleAmount_eq 3 1 (by norm_num)⟩

/-! ### C1, C2, C10 : generateSpectrogram -/

theorem generateSpectrogram_windowCount (bh : ℕ → ℕ → ℚ) (amp : List ℚ → ℕ → ℚ)
    (samples : List ℚ) (samplesStart : ℤ) (samplesLength : ℕ)
    (isStart isEnd : Bool) (windowSize windowStepSize : ℕ)
    (scaleSizeOpt : Option ℕ) :
    (generateSpectrogram bh amp samples samplesStart samplesLength isStart isEnd
        windowSize windowStepSize scaleSizeOpt).windowCount
      = paddedNumWindows samplesLength windowSize windowStepSize isStart isEnd := rfl

theorem generateSpectrogram_data_eq_nil (bh : ℕ → ℕ → ℚ) (amp : List ℚ → ℕ → ℚ)
    (samples : List ℚ) (samplesStart : ℤ) (samplesLength : ℕ)
    (isStart isEnd : Bool) (windowSize windowStepSize : ℕ)
    (scaleSizeOpt : Option ℕ)
    (h : paddedNumWindows samplesLength windowSize windowStepSize isStart isEnd = 0) :
    (generateSpectrogram bh amp samples samplesStart samplesLength isStart isEnd
        windowSize windowStepSize scaleSizeOpt).spectrogramData = [] := by
  unfold generateSpectrogram
  simp only [h, Nat.mul_zero, List.replicate_zero, ite_self, List.range_zero,
    List.foldl_nil]

/-- Claim C1: with both edge flags false, the returned `windowCount` is
`max(0, ceil((samplesLength - windowSize)/windowStepSize + 1))` — also the
value of math-util's `getNumWindows` — and whenever
`samplesLength ≤ windowSize - windowStepSize` the window count is `0` and
the returned spectrogram data is empty. -/
theorem generateSpectrogram_noFlags_windowCount (bh : ℕ → ℕ → ℚ)
    (amp : List ℚ → ℕ → ℚ) (samples : List ℚ) (samplesStart : ℤ)
    (samplesLength windowSize windowStepSize : ℕ) (scaleSizeOpt : Option ℕ)
    (hW : 0 < windowSize) (hS : 0 < windowStepSize) :
    (((generateSpectrogram bh amp samples samplesStart samplesLength false false
        windowSize windowStepSize scaleSizeOpt).windowCount : ℤ)
      = max 0 (Int.ceil ((((samplesLength : ℚ) - (windowSize : ℚ)) / (windowStepSize : ℚ)) + 1)))
    ∧ (((generateSpectrogram bh amp samples samplesStart samplesLength false false
        windowSize windowStepSize scaleSizeOpt).windowCount : ℤ)
      = getNumWindows samplesLength windowSize windowStepSize)
    ∧ ((samplesLength : ℤ) ≤ (windowSize : ℤ) - (windowStepSize : ℤ) →
        (generateSpectrogram bh amp samples samplesStart samplesLength false false
          windowSize windowStepSize scaleSizeOpt).windowCount = 0
        ∧ (generateSpectrogram bh amp samples samplesStart samplesLength false false
          windowSize windowStepSize scaleSizeOpt).spectrogramData = []) := by
  have hpad : paddedNumWindows samplesLength windowSize windowStepSize false false
      = (numWindowsClamped samplesLength windowSize windowStepSize).toNat := by
    simp [paddedNumWindows]
  have hmax : ((numWindowsClamped samplesLength windowSize windowStepSize).toNat : ℤ)
      = max 0 (numWindowsRaw samplesLength windowSize windowStepSize) := by
    have hcl : numWindowsClamped samplesLength windowSize windowStepSize
        = max 0 (numWindowsRaw samplesLength windowSize windowStepSize) := by
      simp only [numWindowsClamped]
      split <;> omega
    rw [hcl]
    omega
  refine ⟨?_, ?_, ?_⟩
  · rw [generateSpectrogram_windowCount, hpad, hmax]
    rfl
  · rw [generateSpectrogram_windowCount, hpad, hmax]
    rfl
  · intro hle
    have hSQ : (0 : ℚ) < (windowStepSize : ℚ) := by exact_mod_cast hS
    have hnum : ((samplesLength : ℚ) - (windowSize : ℚ)) ≤ -(windowStepSize : ℚ) := by
      have : ((samplesLength : ℤ) : ℚ) ≤ ((windowSize : ℤ) : ℚ) - ((windowStepSize : ℤ) : ℚ) := by
        exact_mod_cast hle
      push_cast at this
      linarith
    have hq : (((samplesLength : ℚ) - (windowSize : ℚ)) / (windowStepSize : ℚ)) + 1 ≤ 0 := by
      have hdiv : ((samplesLength : ℚ) - (windowSize : ℚ)) / (windowStepSize : ℚ) ≤ -1 := by
        rw [div_le_iff hSQ]
        linarith
      linarith
    have hraw : numWindowsRaw samplesLength windowSize windowStepSize ≤ 0 := by
      unfold numWindowsRaw
      exact_mod_cast Int.ceil_le.mpr (by exact_mod_cast hq)
    have hzero : paddedNumWindows samplesLength windowSize windowStepSize false false = 0 := by
      rw [hpad]
      simp only [numWindowsClamped]
      split <;> omega
    exact ⟨by rw [generateSpectrogram_windowCount, hzero],
      generateSpectrogram_data_eq_nil _ _ _ _ _ _ _ _ _ _ hzero⟩

/-- Witness for C1 at `samplesLength = 5`, `windowSize = 4096`,
`windowStepSize = 1024`. -/
theorem generateSpectrogram_noFlags_windowCount_witness :
    (5 : ℤ) ≤ (4096 : ℤ) - (1024 : ℤ)
    ∧ (generateSpectrogram (fun _ _ => 0) (fun _ _ => 0) [0, 0, 0, 0, 0] 0 5 false false
        4096 1024 none).windowCount = 0
    ∧ (generateSpectrogram (fun _ _ => 0) (fun _ _ => 0) [0, 0, 0, 0, 0] 0 5 false false
        4096 1024 none).spectrogramData = [] := by
  have h := generateSpectrogram_noFlags_windowCount (fun _ _ => 0) (fun _ _ => 0)
    [0, 0, 0, 0, 0] 0 5 4096 1024 none (by norm_num) (by norm_num)
  exact ⟨by norm_num, (h.2.2 (by norm_num)).1, (h.2.2 (by norm_num)).2⟩

/-- Claim C2: `isStart` adds `floor(windowSize/windowStepSize)` windows and
shifts the effective start back by that many strides, `isEnd` appends the
same count, both flags compose, and the concrete scenario (window 4096,
step 1024, 5 samples, both flags) yields `windowCount = 2 * floor(4096/1024)
= 8`. -/
theorem generateSpectrogram_padding (bh : ℕ → ℕ → ℚ) (amp : List ℚ → ℕ → ℚ)
    (samples : List ℚ) (samplesStart : ℤ) (samplesLength : ℕ)
    (isStart isEnd : Bool) (windowSize windowStepSize : ℕ)
    (scaleSizeOpt : Option ℕ) (hS : 0 < windowStepSize) :
    ((generateSpectrogram bh amp samples samplesStart samplesLength isStart isEnd
        windowSize windowStepSize scaleSizeOpt).windowCount
      = (numWindowsClamped samplesLength windowSize windowStepSize).toNat
        + (if isStart then windowSize / windowStepSize else 0)
        + (if isEnd then windowSize / windowStepSize else 0))
    ∧ (startIdxOf samplesStart windowSize windowStepSize isStart
      = samplesStart
        - (if isStart then ((windowSize / windowStepSize : ℕ) : ℤ) * (windowStepSize : ℤ) else 0))
    ∧ (generateSpectrogram bh amp (List.replicate 5 0) 0 5 true true 4096 1024
        none).windowCount = 2 * (4096 / 1024) := by
  refine ⟨rfl, ?_, ?_⟩
  · unfold startIdxOf additionalWindows
    cases isStart <;> simp
  · rw [generateSpectrogram_windowCount]
    have hraw : numWindowsRaw 5 4096 1024 = -2 := by
      unfold numWindowsRaw
      rw [Int.ceil_eq_iff] <;> norm_num
    unfold paddedNumWindows numWindowsClamped additionalWindows
    rw [hraw]
    norm_num

/-- Witness for C2 at the scenario inputs. -/
theorem generateSpectrogram_padding_witness :
    0 < 1024
    ∧ (generateSpectrogram (fun _ _ => 0) (fun _ _ => 0) (List.replicate 5 0) 0 5
        true true 4096 1024 none).windowCount = 2 * (4096 / 1024) :=
  ⟨by norm_num,
    (generateSpectrogram_padding (fun _ _ => 0) (fun _ _ => 0) (List.replicate 5 0)
      0 5 true true 4096 1024 none (by norm_num)).2.2⟩

theorem foldl_preserves_samples (f : GenState → ℕ → GenState)
    (hf : ∀ st w, (f st w).samples = st.samples) :
    ∀ (l : List ℕ) (st : GenState), (l.foldl f st).samples = st.samples := by
  intro l
  induction l with
  | nil => intro st; rfl
  | cons a l ih =>
    intro st
    rw [List.foldl_cons, ih, hf]

/-- Claim C10: `generateSpectrogram` never writes to the caller's `samples`
array — every write of the computation targets the scratch window buffer or
the result buffer, so the samples after the call equal the samples before
it. -/
theorem generateSpectrogram_samples_unchanged (bh : ℕ → ℕ → ℚ)
    (amp : List ℚ → ℕ → ℚ) (samples : List ℚ) (samplesStart : ℤ)
    (samplesLength : ℕ) (isStart isEnd : Bool)
    (windowSize windowStepSize : ℕ) (scaleSizeOpt : Option ℕ) :
    (generateSpectrogram bh amp samples samplesStart samplesLength isStart isEnd
        windowSize windowStepSize scaleSizeOpt).samplesAfter = samples := by
  unfold generateSpectrogram
  dsimp only
  apply foldl_preserves_samples
  intro st w
  rfl

/-! ### C9 : failed compute dispatch -/

/-- Claim C9: a visualization update whose compute dispatch errors rejects
with the error, leaves the spectrogram ring buffer unchanged, and the
worker delivers no spectrogram data for a failed computation. -/
theorem updateSpectrogramBuffer_error (st : VisState) (e : String) :
    (updateSpectrogramBuffer st (Except.error e)).1
        = Except.error ("Failed to generate spectrogram: " ++ e)
    ∧ (updateSpectrogramBuffer st (Except.error e)).2.spectrogramBuffer
        = st.spectrogramBuffer
    ∧ ∀ run : Unit → Except String (ℕ × List ℚ × List ℚ),
        run () = Except.error e → workerOnMessage run = WorkerResponse.failure e := by
  refine ⟨rfl, rfl, ?_⟩
  intro run hrun
  unfold workerOnMessage
  rw [hrun]

/-- Witness for C9 at a concrete visualizer state and a concrete failing
computation. -/
theorem updateSpectrogramBuffer_error_witness :
    (updateSpectrogramBuffer
        { spectrogramBuffer := Circular2DDataBuffer.mk0 2 2 1, imageDirty := false }
        (Except.error "boom")).1
      = Except.error ("Failed to generate spectrogram: " ++ "boom")
    ∧ (updateSpectrogramBuffer
        { spectrogramBuffer := Circular2DDataBuffer.mk0 2 2 1, imageDirty := false }
        (Except.error "boom")).2.spectrogramBuffer
      = Circular2DDataBuffer.mk0 2 2 1
    ∧ workerOnMessage (fun _ => Except.error "boom") = WorkerResponse.failure "boom" := by
  have h := updateSpectrogramBuffer_error
    { spectrogramBuffer := Circular2DDataBuffer.mk0 2 2 1, imageDirty := false } "boom"
  exact ⟨h.1, h.2.1, h.2.2 (fun _ => Except.error "boom") rfl⟩

/-! ### C7 : sample ring buffer capacity invariant -/

theorem totalLen_nil {α : Type} : totalLen ([] : List (List α)) = 0 := rfl

theorem totalLen_cons {α : Type} (c : List α) (l : List (List α)) :
    totalLen (c :: l) = c.length + totalLen l := by
  simp [totalLen]

theorem totalLen_append {α : Type} (l1 l2 : List (List α)) :
    totalLen (l1 ++ l2) = totalLen l1 + totalLen l2 := by
  simp [totalLen]

theorem suffix_append_right {α : Type} {s l : List α} (t : List α)
    (h : s <:+ l) : s ++ t <:+ l ++ t := by
  obtain ⟨u, rfl⟩ := h
  exact ⟨u, by simp⟩

theorem suffix_concat_cases {α : Type} {s xs : List α} {d : α}
    (h : s <:+ xs ++ [d]) : s = [] ∨ ∃ t, t <:+ xs ∧ s = t ++ [d] := by
  induction xs generalizing s with
  | nil =>
    rcases List.suffix_cons_iff.mp h with rfl | h2
    · exact Or.inr ⟨[], List.nil_suffix, rfl⟩
    · exact Or.inl (List.suffix_nil.mp h2)
  | cons x xs ih =>
    rw [List.cons_append] at h
    rcases List.suffix_cons_iff.mp h with rfl | h2
    · exact Or.inr ⟨x :: xs, List.suffix_rfl, rfl⟩
    · rcases ih h2 with rfl | ⟨t, ht, rfl⟩
      · exact Or.inl rfl
      · exact Or.inr ⟨t, ht.trans (List.suffix_cons x xs), rfl⟩

theorem evict_spec {α : Type} (maxSize : ℕ) :
    ∀ buf : List (List α),
      (evict maxSize buf (totalLen buf)).2 = totalLen (evict maxSize buf (totalLen buf)).1
      ∧ totalLen (evict maxSize buf (totalLen buf)).1 ≤ maxSize
      ∧ (evict maxSize buf (totalLen buf)).1 <:+ buf
      ∧ ∀ s, s <:+ buf → totalLen s ≤ maxSize →
          s <:+ (evict maxSize buf (totalLen buf)).1 := by
  intro buf
  induction buf with
  | nil =>
    refine ⟨rfl, by simp [evict, totalLen], List.suffix_rfl, ?_⟩
    intro s hs _
    exact hs
  | cons c rest ih =>
    by_cases hle : totalLen (c :: rest) ≤ maxSize
    · rw [show evict maxSize (c :: rest) (totalLen (c :: rest))
          = (c :: rest, totalLen (c :: rest)) by simp [evict, hle]]
      exact ⟨rfl, hle, List.suffix_rfl, fun s hs _ => hs⟩
    · have harg : totalLen (c :: rest) - c.length = totalLen rest := by
        rw [totalLen_cons]; omega
      rw [show evict maxSize (c :: rest) (totalLen (c :: rest))
          = evict maxSize rest (totalLen rest) by simp [evict, hle, harg]]
      refine ⟨ih.1, ih.2.1, ih.2.2.1.trans (List.suffix_cons c rest), ?_⟩
      intro s hs hsl
      rcases List.suffix_cons_iff.mp hs with rfl | hs2
      · omega
      · exact ih.2.2.2 s hs2 hsl

theorem push_as_evict {α : Type} (maxSize : ℕ) (st : List (List α) × ℕ)
    (data : List α) (h : st.2 = totalLen st.1) :
    push maxSize st data = evict maxSize (st.1 ++ [data]) (totalLen (st.1 ++ [data])) := by
  unfold push
  rw [h, totalLen_append, totalLen_cons, totalLen_nil]
  ring_nf

theorem pushMany_go {α : Type} (maxSize : ℕ) :
    ∀ (chunks : List (List α)) (st : List (List α) × ℕ) (processed : List (List α)),
      st.2 = totalLen st.1 → totalLen st.1 ≤ maxSize → st.1 <:+ processed →
      (∀ s, s <:+ processed → totalLen s ≤ maxSize → s <:+ st.1) →
      (chunks.foldl (push maxSize) st).2 = totalLen (chunks.foldl (push maxSize) st).1
      ∧ totalLen (chunks.foldl (push maxSize) st).1 ≤ maxSize
      ∧ (chunks.foldl (push maxSize) st).1 <:+ processed ++ chunks
      ∧ ∀ s, s <:+ processed ++ chunks → totalLen s ≤ maxSize →
          s <:+ (chunks.foldl (push maxSize) st).1 := by
  intro chunks
  induction chunks with
  | nil =>
    intro st processed h1 h2 h3 h4
    simpa using ⟨h1, h2, h3, h4⟩
  | cons d rest ih =>
    intro st processed h1 h2 h3 h4
    rw [List.foldl_cons]
    have hpe := push_as_evict maxSize st d h1
    have he := evict_spec maxSize (st.1 ++ [d])
    have hnew1 : (push maxSize st d).2 = totalLen (push maxSize st d).1 := by
      rw [hpe]; exact he.1
    have hnew2 : totalLen (push maxSize st d).1 ≤ maxSize := by
      rw [hpe]; exact he.2.1
    have hnew3 : (push maxSize st d).1 <:+ processed ++ [d] := by
      rw [hpe]
      exact he.2.2.1.trans (suffix_append_right [d] h3)
    have hnew4 : ∀ s, s <:+ processed ++ [d] → totalLen s ≤ maxSize →
        s <:+ (push maxSize st d).1 := by
      intro s hs hsl
      rcases suffix_concat_cases hs with rfl | ⟨t, ht, rfl⟩
      · exact List.nil_suffix
      · have htl : totalLen t ≤ maxSize := by
          rw [totalLen_append, totalLen_cons, totalLen_nil] at hsl
          omega
        have ht1 : t <:+ st.1 := h4 t ht htl
        rw [hpe]
        exact he.2.2.2 _ (suffix_append_right [d] ht1) hsl
    have := ih (push maxSize st d) (processed ++ [d]) hnew1 hnew2 hnew3 hnew4
    rwa [List.append_assoc, List.singleton_append] at this

theorem splice_bound (capacity bufferSize n : ℕ) (h : capacity < n * bufferSize) :
    (n - (Int.floor ((n : ℚ) - (capacity : ℚ) / (bufferSize : ℚ) + 1)).toNat) * bufferSize
      ≤ capacity := by
  rcases Nat.eq_zero_or_pos bufferSize with rfl | hb
  · simp at h
  have hbQ : (0 : ℚ) < (bufferSize : ℚ) := by exact_mod_cast hb
  have hdivlt : (capacity : ℚ) / (bufferSize : ℚ) < (n : ℚ) := by
    rw [div_lt_iff hbQ]
    exact_mod_cast h
  have hq1 : (1 : ℚ) < (n : ℚ) - (capacity : ℚ) / (bufferSize : ℚ) + 1 := by
    linarith
  have hfl : 1 ≤ Int.floor ((n : ℚ) - (capacity : ℚ) / (bufferSize : ℚ) + 1) := by
    rw [Int.le_floor]
    push_cast
    linarith
  set dC : ℕ := (Int.floor ((n : ℚ) - (capacity : ℚ) / (bufferSize : ℚ) + 1)).toNat with hdC
  have hdCQ : (n : ℚ) - (capacity : ℚ) / (bufferSize : ℚ) < (dC : ℚ) := by
    have h1 : ((n : ℚ) - (capacity : ℚ) / (bufferSize : ℚ) + 1) - 1
        < ((Int.floor ((n : ℚ) - (capacity : ℚ) / (bufferSize : ℚ) + 1) : ℤ) : ℚ) :=
      Int.sub_one_lt_floor _
    have h2 : ((dC : ℕ) : ℚ)
        = ((Int.floor ((n : ℚ) - (capacity : ℚ) / (bufferSize : ℚ) + 1) : ℤ) : ℚ) := by
      rw [hdC]
      norm_cast
      omega
    rw [h2]
    linarith
  rcases le_or_lt n dC with hnd | hnd
  · have hz : n - dC = 0 := by omega
    rw [hz]
    simp
  · have hsub : ((n - dC : ℕ) : ℚ) = (n : ℚ) - (dC : ℚ) := by
      push_cast [Nat.cast_sub hnd.le]
      ring
    have hlt : ((n - dC : ℕ) : ℚ) * (bufferSize : ℚ) < (capacity : ℚ) := by
      rw [hsub]
      have h3 : (n : ℚ) - (dC : ℚ) < (capacity : ℚ) / (bufferSize : ℚ) := by linarith
      calc ((n : ℚ) - (dC : ℚ)) * (bufferSize : ℚ)
          < ((capacity : ℚ) / (bufferSize : ℚ)) * (bufferSize : ℚ) :=
            mul_lt_mul_of_pos_right h3 hbQ
        _ = (capacity : ℚ) := by field_simp
    exact_mod_cast hlt.le

theorem pushBlocks_spec {α : Type} (capacity bufferSize : ℕ)
    (buffers : List (List α)) (data : List α) (bs : List (List α))
    (h : pushBlocks capacity bufferSize buffers data = some bs) :
    bs.length * bufferSize ≤ capacity ∧ bs <:+ buffers ++ [data] := by
  simp only [pushBlocks] at h
  split_ifs at h with h1 h2
  · rw [Option.some.injEq] at h
    subst h
    constructor
    · rw [List.length_drop]
      exact splice_bound capacity bufferSize (buffers ++ [data]).length h2
    · exact List.drop_suffix _ _
  · rw [Option.some.injEq] at h
    subst h
    exact ⟨le_of_not_lt h2, List.suffix_rfl⟩

theorem pushBlocksMany_go {α : Type} (capacity bufferSize : ℕ) :
    ∀ (chunks : List (List α)) (acc : List (List α)) (bs : List (List α)),
      acc.length * bufferSize ≤ capacity →
      List.foldlM (pushBlocks capacity bufferSize) acc chunks = some bs →
      bs.length * bufferSize ≤ capacity ∧ bs <:+ acc ++ chunks := by
  intro chunks
  induction chunks with
  | nil =>
    intro acc bs hacc h
    simp only [List.foldlM_nil, Option.pure_def, Option.some.injEq] at h
    subst h
    simpa using hacc
  | cons c rest ih =>
    intro acc bs hacc h
    rw [List.foldlM_cons] at h
    rcases Option.bind_eq_some.mp h with ⟨a1, ha1, hrest⟩
    have hs1 := pushBlocks_spec capacity bufferSize acc c a1 ha1
    have := ih a1 bs hs1.1 hrest
    refine ⟨this.1, this.2.trans ?_⟩
    have := suffix_append_right rest hs1.2
    rwa [List.append_assoc, List.singleton_append] at this

/-- Claim C7: for the queue-backed `CircularDataBuffer` (processor copy.ts)
any push sequence leaves the tracked size equal to the stored total, at most
the capacity, and the stored chunks a suffix of the pushed chunks (only
oldest whole chunks evicted) — indeed the longest suffix within capacity;
for the fixed-chunk `CircularDataBuffer` (processor.ts) any successful push
sequence likewise leaves at most `capacity` samples and a suffix of the
pushed chunks. -/
theorem ring_buffer_capacity_invariant :
    (∀ (maxSize : ℕ) (chunks : List (List ℤ)),
      (pushMany maxSize chunks).2 = totalLen (pushMany maxSize chunks).1
      ∧ totalLen (pushMany maxSize chunks).1 ≤ maxSize
      ∧ (pushMany maxSize chunks).1 <:+ chunks
      ∧ ∀ s, s <:+ chunks → totalLen s ≤ maxSize →
          s <:+ (pushMany maxSize chunks).1)
    ∧ (∀ (capacity bufferSize : ℕ) (chunks bs : List (List ℤ)),
        pushBlocksMany capacity bufferSize chunks = some bs →
        bs.length * bufferSize ≤ capacity ∧ bs <:+ chunks) := by
  constructor
  · intro maxSize chunks
    have h := pushMany_go maxSize chunks ([], 0) [] rfl (Nat.zero_le _)
      List.suffix_rfl (fun s hs _ => hs)
    simpa [pushMany] using h
  · intro capacity bufferSize chunks bs h
    have := pushBlocksMany_go capacity bufferSize chunks [] bs
      (by simp) h
    simpa using this

/-- Witness for C7: three pushes of two-sample chunks into capacity-4
buffers; the queue-backed buffer ends with the two newest chunks, the
fixed-chunk buffer accepts both pushes that fit. -/
theorem ring_buffer_capacity_invariant_witness :
    ((pushMany 4 [[1, 2], [3, 4], [5, 6]] : List (List ℤ) × ℕ).2
        = totalLen (pushMany 4 [[1, 2], [3, 4], [5, 6]] : List (List ℤ) × ℕ).1
      ∧ totalLen (pushMany 4 [[1, 2], [3, 4], [5, 6]] : List (List ℤ) × ℕ).1 ≤ 4
      ∧ (pushMany 4 [[1, 2], [3, 4], [5, 6]] : List (List ℤ) × ℕ).1
          <:+ [[1, 2], [3, 4], [5, 6]])
    ∧ (([[1, 2], [3, 4]] : List (List ℤ)).length * 2 ≤ 4
      ∧ ([[1, 2], [3, 4]] : List (List ℤ)) <:+ [[1, 2], [3, 4]]) := by
  have h1 := ring_buffer_capacity_invariant.1 4 [[1, 2], [3, 4], [5, 6]]
  have h2 := ring_buffer_capacity_invariant.2 4 2 [[1, 2], [3, 4]] [[1, 2], [3, 4]]
    (by simp [pushBlocksMany, pushBlocks])
  exact ⟨⟨h1.1, h1.2.1, h1.2.2.1⟩, h2⟩

/-! ### C8 : shift of the oldest n samples -/

/-- Claim C8 is violated by the code: on a buffer holding the single chunk
`[0..9]`, `shift(4)` must return the oldest four samples `[0,1,2,3]`
(splitting the chunk); instead the processor.ts variant returns the garbled
`[8,9,6,7]` (the split remainder is re-queued at the back and `dataIdx`
never advances past the partial copy), and the processor copy.ts variant
returns the zero padding `[0,0,0,0]` after silently discarding the whole
chunk. -/
theorem shift_mid_chunk_eval :
    (shift 4 ([[0, 1, 2, 3, 4, 5, 6, 7, 8, 9]] : List (List ℤ)) 10).1 = [8, 9, 6, 7]
    ∧ (shiftBreak 4 ([[0, 1, 2, 3, 4, 5, 6, 7, 8, 9]] : List (List ℤ)) 10).1 = [0, 0, 0, 0]
    ∧ (([[0, 1, 2, 3, 4, 5, 6, 7, 8, 9]] : List (List ℤ)).flatten.take 4 = [0, 1, 2, 3])
    ∧ ([8, 9, 6, 7] : List ℤ) ≠ [0, 1, 2, 3]
    ∧ ([0, 0, 0, 0] : List ℤ) ≠ [0, 1, 2, 3] := by
  refine ⟨?_, ?_, by decide, by decide, by decide⟩
  · simp [shift, shiftLoop, setBlock]
  · simp [shiftBreak, shiftBreakLoop, setBlock]

/-! ### C3, C4 : Circular2DDataBuffer — block-write toolkit -/

theorem setBlock_length {α : Type} :
    ∀ (blk l : List α) (o : ℕ), (setBlock l o blk).length = l.length := by
  intro blk
  induction blk with
  | nil => intro l o; rfl
  | cons a as ih =>
    intro l o
    rw [setBlock, ih, List.length_set]

theorem setBlock_getElem?_out {α : Type} :
    ∀ (blk l : List α) (o j : ℕ), (j < o ∨ o + blk.length ≤ j) →
      (setBlock l o blk)[j]? = l[j]? := by
  intro blk
  induction blk with
  | nil => intro l o j _; rfl
  | cons a as ih =>
    intro l o j hj
    simp only [List.length_cons] at hj
    have hj2 : j < o + 1 ∨ (o + 1) + as.length ≤ j := by omega
    have hne : o ≠ j := by omega
    rw [setBlock, ih (l.set o a) (o + 1) j hj2, List.getElem?_set_ne hne]

theorem setBlock_getElem?_in {α : Type} :
    ∀ (blk l : List α) (o t : ℕ), t < blk.length → o + blk.length ≤ l.length →
      (setBlock l o blk)[o + t]? = blk[t]? := by
  intro blk
  induction blk with
  | nil => intro l o t ht _; simp at ht
  | cons a as ih =>
    intro l o t ht hb
    simp only [List.length_cons] at ht hb
    match t with
    | 0 =>
      rw [setBlock, setBlock_getElem?_out as (l.set o a) (o + 1) (o + 0) (by omega)]
      simp only [Nat.add_zero]
      rw [List.getElem?_set_eq (by omega)]
      simp
    | t + 1 =>
      rw [setBlock,
        show o + (t + 1) = (o + 1) + t by omega,
        ih (l.set o a) (o + 1) t (by omega) (by rw [List.length_set]; omega)]
      simp

theorem subBlock_getElem?_lt {α : Type} (l : List α) (o n t : ℕ) (ht : t < n) :
    (subBlock l o n)[t]? = l[o + t]? := by
  unfold subBlock
  rw [List.getElem?_take_of_lt ht, List.getElem?_drop]

theorem subBlock_getElem?_ge {α : Type} (l : List α) (o n t : ℕ) (ht : n ≤ t) :
    (subBlock l o n)[t]? = none := by
  apply List.getElem?_eq_none
  unfold subBlock
  simp only [List.length_take, List.length_drop]
  omega

theorem subBlock_length_of_le {α : Type} (l : List α) (o n : ℕ)
    (h : o + n ≤ l.length) : (subBlock l o n).length = n := by
  unfold subBlock
  simp only [List.length_take, List.length_drop]
  omega

theorem subBlock_setBlock_other {α : Type} (l blkq : List α) (R p q : ℕ)
    (hne : q ≠ p) (hblk : blkq.length = R) :
    subBlock (setBlock l (q * R) blkq) (p * R) R = subBlock l (p * R) R := by
  apply List.ext_getElem?_iff.mpr
  intro t
  rcases lt_or_ge t R with ht | ht
  · rw [subBlock_getElem?_lt _ _ _ _ ht, subBlock_getElem?_lt _ _ _ _ ht]
    apply setBlock_getElem?_out
    rw [hblk]
    rcases lt_or_gt_of_ne hne with hq | hq
    · right
      have h1 : (q + 1) * R ≤ p * R := Nat.mul_le_mul_right R (by omega)
      have h2 : (q + 1) * R = q * R + R := by ring
      omega
    · left
      have h1 : (p + 1) * R ≤ q * R := Nat.mul_le_mul_right R (by omega)
      have h2 : (p + 1) * R = p * R + R := by ring
      omega
  · rw [subBlock_getElem?_ge _ _ _ _ ht, subBlock_getElem?_ge _ _ _ _ ht]

theorem subBlock_setBlock_self {α : Type} (l blk : List α) (R q : ℕ)
    (hblk : blk.length = R) (hbound : q * R + R ≤ l.length) :
    subBlock (setBlock l (q * R) blk) (q * R) R = blk := by
  apply List.ext_getElem?_iff.mpr
  intro t
  rcases lt_or_ge t R with ht | ht
  · rw [subBlock_getElem?_lt _ _ _ _ ht]
    rw [setBlock_getElem?_in blk l (q * R) t (by omega) (by omega)]
  · rw [subBlock_getElem?_ge _ _ _ _ ht, List.getElem?_eq_none (by omega)]

/-- The write loops of `enqueue` and `resizeWidth` in generic form: the
`i`-th step overwrites the `R` elements at offset `tgt i * R` with `blk i`. -/
def foldWrites {α : Type} (tgt : ℕ → ℕ) (blk : ℕ → List α) (R : ℕ)
    (N : ℕ) (init : List α) : List α :=
  (List.range N).foldl (fun d i => setBlock d (tgt i * R) (blk i)) init

theorem foldWrites_succ {α : Type} (tgt : ℕ → ℕ) (blk : ℕ → List α) (R N : ℕ)
    (init : List α) :
    foldWrites tgt blk R (N + 1) init
      = setBlock (foldWrites tgt blk R N init) (tgt N * R) (blk N) := by
  unfold foldWrites
  rw [List.range_succ, List.foldl_append, List.foldl_cons, List.foldl_nil]

theorem foldWrites_length {α : Type} (tgt : ℕ → ℕ) (blk : ℕ → List α) (R : ℕ) :
    ∀ (N : ℕ) (init : List α), (foldWrites tgt blk R N init).length = init.length := by
  intro N
  induction N with
  | zero => intro init; rfl
  | succ M ih =>
    intro init
    rw [foldWrites_succ, setBlock_length, ih]

theorem foldWrites_col_miss {α : Type} (tgt : ℕ → ℕ) (blk : ℕ → List α)
    (R : ℕ) (p : ℕ) :
    ∀ (N : ℕ) (init : List α),
      (∀ i < N, tgt i ≠ p) → (∀ i < N, (blk i).length = R) →
      subBlock (foldWrites tgt blk R N init) (p * R) R = subBlock init (p * R) R := by
  intro N
  induction N with
  | zero => intro init _ _; rfl
  | succ M ih =>
    intro init hmiss hblk
    rw [foldWrites_succ,
      subBlock_setBlock_other _ _ R p (tgt M) (hmiss M (by omega)) (hblk M (by omega)),
      ih init (fun i hi => hmiss i (by omega)) (fun i hi => hblk i (by omega))]

theorem foldWrites_col_hit {α : Type} (tgt : ℕ → ℕ) (blk : ℕ → List α)
    (R : ℕ) (i0 : ℕ) :
    ∀ (N : ℕ) (init : List α), i0 < N →
      (∀ i, i0 < i → i < N → tgt i ≠ tgt i0) →
      (∀ i < N, (blk i).length = R) →
      (∀ i < N, tgt i * R + R ≤ init.length) →
      subBlock (foldWrites tgt blk R N init) (tgt i0 * R) R = blk i0 := by
  intro N
  induction N with
  | zero => intro init h0 _ _ _; omega
  | succ M ih =>
    intro init h0 hafter hblk hbnd
    rw [foldWrites_succ]
    rcases Nat.lt_or_ge i0 M with hiM | hiM
    · rw [subBlock_setBlock_other _ _ R (tgt i0) (tgt M)
        (hafter M hiM (by omega)) (hblk M (by omega))]
      exact ih init hiM (fun i h1 h2 => hafter i h1 (by omega))
        (fun i hi => hblk i (by omega)) (fun i hi => hbnd i (by omega))
    · have hi0M : i0 = M := by omega
      subst hi0M
      exact subBlock_setBlock_self _ _ R (tgt i0) (hblk i0 (by omega))
        (by rw [foldWrites_length]; exact hbnd i0 (by omega))

theorem enqueue_numColumns {α : Type} (b : Circular2DDataBuffer α) (d : List α) :
    (b.enqueue d).numColumns = b.numColumns := by
  unfold Circular2DDataBuffer.enqueue
  dsimp only
  split <;> rfl

theorem enqueue_numRows {α : Type} (b : Circular2DDataBuffer α) (d : List α) :
    (b.enqueue d).numRows = b.numRows := by
  unfold Circular2DDataBuffer.enqueue
  dsimp only
  split <;> rfl

theorem enqueue_bufferData {α : Type} (b : Circular2DDataBuffer α) (d : List α) :
    (b.enqueue d).bufferData
      = foldWrites (fun i => (b.startIndex + b.currentLength + i) % b.numColumns)
          (fun i => subBlock d (i * b.numRows) b.numRows) b.numRows
          (d.length / (b.elementSize * b.numRows)) b.bufferData := by
  unfold Circular2DDataBuffer.enqueue foldWrites
  dsimp only
  split <;> rfl

theorem enqueue_currentLength {α : Type} (b : Circular2DDataBuffer α) (d : List α) :
    (b.enqueue d).currentLength
      = min (b.currentLength + d.length / (b.elementSize * b.numRows)) b.numColumns := by
  unfold Circular2DDataBuffer.enqueue
  dsimp only
  split <;> (dsimp only; omega)

theorem enqueue_startIndex {α : Type} (b : Circular2DDataBuffer α) (d : List α) :
    (b.enqueue d).startIndex
      = (if b.currentLength + d.length / (b.elementSize * b.numRows) ≤ b.numColumns
         then b.startIndex
         else (b.startIndex + (b.currentLength + d.length / (b.elementSize * b.numRows))
                - b.numColumns) % b.numColumns) := by
  unfold Circular2DDataBuffer.enqueue
  dsimp only
  split
  next h =>
    dsimp only
    rw [if_neg (by omega)]
  next h =>
    dsimp only
    rw [if_pos (by omega)]

/-- Behaviour of `enqueue` for `elementSize = 1` (the configuration every
use of the class has): the update of `currentLength`/`startIndex`, and the
live columns after the call — the most recent `min (currentLength + N,
numColumns)` of the old live columns followed by the `N` whole input
columns, in time order. -/
theorem enqueue_spec {α : Type} (b : Circular2DDataBuffer α) (d : List α)
    (N len' : ℕ)
    (hES : b.elementSize = 1) (hC : 0 < b.numColumns) (hR : 0 < b.numRows)
    (hL : b.currentLength ≤ b.numColumns)
    (hlen : b.bufferData.length = b.numColumns * b.numRows)
    (hN : N = d.length / b.numRows)
    (hlen' : len' = min (b.currentLength + N) b.numColumns) :
    (b.enqueue d).currentLength = len'
    ∧ (b.enqueue d).startIndex
        = (if b.currentLength + N ≤ b.numColumns then b.startIndex
           else (b.startIndex + (b.currentLength + N) - b.numColumns) % b.numColumns)
    ∧ ∀ j < len',
        (b.enqueue d).liveColumn j
          = (if b.currentLength + N - len' + j < b.currentLength
             then b.liveColumn (b.currentLength + N - len' + j)
             else inputColumn b.numRows d (b.currentLength + N - len' + j - b.currentLength)) := by
  have hNE : d.length / (b.elementSize * b.numRows) = N := by
    rw [hES, one_mul, hN]
  have hblkall : ∀ i < N,
      (subBlock d (i * b.numRows) b.numRows).length = b.numRows := by
    intro i hi
    apply subBlock_length_of_le
    have h1 : (i + 1) * b.numRows ≤ N * b.numRows :=
      Nat.mul_le_mul_right _ (by omega)
    have h2 : N * b.numRows ≤ d.length := by
      rw [hN]
      exact Nat.div_mul_le_self _ _
    have h3 : (i + 1) * b.numRows = i * b.numRows + b.numRows := by ring
    omega
  have hbndall : ∀ i < N,
      ((b.startIndex + b.currentLength + i) % b.numColumns) * b.numRows + b.numRows
        ≤ b.bufferData.length := by
    intro i _
    have hm : (b.startIndex + b.currentLength + i) % b.numColumns < b.numColumns :=
      Nat.mod_lt _ hC
    have h1 : ((b.startIndex + b.currentLength + i) % b.numColumns + 1) * b.numRows
        ≤ b.numColumns * b.numRows := Nat.mul_le_mul_right _ (by omega)
    have h3 : ((b.startIndex + b.currentLength + i) % b.numColumns + 1) * b.numRows
        = ((b.startIndex + b.currentLength + i) % b.numColumns) * b.numRows + b.numRows := by
      ring
    omega
  refine ⟨by rw [enqueue_currentLength, hNE, hlen'], by rw [enqueue_startIndex, hNE], ?_⟩
  intro j hj
  set L := b.currentLength with hLdef
  set C := b.numColumns with hCdef
  set R := b.numRows with hRdef
  set s := b.startIndex with hsdef
  set k := L + N - len' + j with hkdef
  have hlive : (b.enqueue d).liveColumn j
      = subBlock (foldWrites (fun i => (s + L + i) % C)
          (fun i => subBlock d (i * R) R) R N b.bufferData)
        ((((if L + N ≤ C then s else (s + (L + N) - C) % C) + j) % C) * R) R := by
    unfold Circular2DDataBuffer.liveColumn Circular2DDataBuffer.column
    rw [enqueue_numRows, enqueue_numColumns, enqueue_bufferData, hNE,
      enqueue_startIndex, hNE]
  have hmodp : ((if L + N ≤ C then s else (s + (L + N) - C) % C) + j) % C
      = (s + k) % C := by
    split
    next hov =>
      congr 1
      omega
    next hov =>
      rw [Nat.mod_add_mod]
      congr 1
      omega
  rw [hlive, hmodp]
  by_cases hkL : k < L
  · rw [if_pos hkL]
    have hmiss : ∀ i < N, (s + L + i) % C ≠ (s + k) % C := by
      intro i hi heq
      have hle : s + k ≤ s + L + i := by omega
      have hdvd : C ∣ (s + L + i) - (s + k) :=
        (Nat.modEq_iff_dvd' hle).mp heq.symm
      have hpos : 0 < (s + L + i) - (s + k) := by omega
      have hlt : (s + L + i) - (s + k) < C := by omega
      exact absurd (Nat.le_of_dvd hpos hdvd) (by omega)
    rw [foldWrites_col_miss _ _ R ((s + k) % C) N b.bufferData hmiss hblkall]
    rfl
  · rw [if_neg hkL]
    have hkNN : k - L < N := by omega
    have hsk : s + L + (k - L) = s + k := by omega
    have hafter : ∀ i, k - L < i → i < N →
        (s + L + i) % C ≠ (s + L + (k - L)) % C := by
      intro i h1 h2 heq
      have hle : s + L + (k - L) ≤ s + L + i := by omega
      have hdvd : C ∣ (s + L + i) - (s + L + (k - L)) :=
        (Nat.modEq_iff_dvd' hle).mp heq.symm
      have hpos : 0 < (s + L + i) - (s + L + (k - L)) := by omega
      have hlt : (s + L + i) - (s + L + (k - L)) < C := by omega
      exact absurd (Nat.le_of_dvd hpos hdvd) (by omega)
    have hhit := foldWrites_col_hit (fun i => (s + L + i) % C)
      (fun i => subBlock d (i * R) R) R (k - L) N b.bufferData hkNN hafter
      hblkall hbndall
    simp only at hhit
    rw [hsk] at hhit
    rw [hhit]
    rfl

/-- Counterexample to claim C3 as stated: for `elementSize = 2` (buffer of
2 columns, 1 row), enqueueing `[5,7,9,11]` counts `floor(4/(1*2)) = 2` new
columns, but the code copies with stride `numRows` instead of `numRows *
elementSize`: the stored data becomes `[5,7,0,0]` — the second claimed
whole column `[9,11]` is not appended (its elements appear nowhere), and
the stored column 1 under the claimed `numRows*elementSize` layout is
`[0,0]`, not `[9,11]`. -/
theorem enqueue_elementSize_two_counterexample :
    ((Circular2DDataBuffer.mk0 2 1 2 : Circular2DDataBuffer ℤ).enqueue
        [5, 7, 9, 11]).bufferData = [5, 7, 0, 0]
    ∧ ¬ specStoredColumn
        ((Circular2DDataBuffer.mk0 2 1 2 : Circular2DDataBuffer ℤ).enqueue [5, 7, 9, 11]) 1
        = specInputColumn 1 2 [5, 7, 9, 11] 1
    ∧ ¬ (9 : ℤ) ∈ ((Circular2DDataBuffer.mk0 2 1 2 : Circular2DDataBuffer ℤ).enqueue
        [5, 7, 9, 11]).bufferData := by
  refine ⟨by decide, by decide, by decide⟩

/-- Claim C3, amended to `elementSize = 1` (the only configuration the
program constructs): `enqueue` appends exactly `floor(len(newData)/numRows)`
whole columns in order with wraparound, capping `currentLength` at
`numColumns` and advancing `startIndex` on overflow, and the concrete
scenario (3×2 buffer, columns [0,1],[1,2],[2,3],[3,4]) ends with
`startIndex = 1`, `currentLength = 3` and live columns [1,2],[2,3],[3,4]. -/
theorem enqueue_whole_columns :
    (∀ (b : Circular2DDataBuffer ℤ) (d : List ℤ) (N len' : ℕ),
      b.elementSize = 1 → 0 < b.numColumns → 0 < b.numRows →
      b.currentLength ≤ b.numColumns →
      b.bufferData.length = b.numColumns * b.numRows →
      N = d.length / b.numRows →
      len' = min (b.currentLength + N) b.numColumns →
      (b.enqueue d).currentLength = len'
      ∧ (b.enqueue d).startIndex
          = (if b.currentLength + N ≤ b.numColumns then b.startIndex
             else (b.startIndex + (b.currentLength + N) - b.numColumns) % b.numColumns)
      ∧ ∀ j < len',
          (b.enqueue d).liveColumn j
            = (if b.currentLength + N - len' + j < b.currentLength
               then b.liveColumn (b.currentLength + N - len' + j)
               else inputColumn b.numRows d (b.currentLength + N - len' + j - b.currentLength)))
    ∧ ((((((Circular2DDataBuffer.mk0 3 2 1 : Circular2DDataBuffer ℤ).enqueue
            [0, 1]).enqueue [1, 2]).enqueue [2, 3]).enqueue [3, 4]).startIndex = 1
      ∧ (((((Circular2DDataBuffer.mk0 3 2 1 : Circular2DDataBuffer ℤ).enqueue
            [0, 1]).enqueue [1, 2]).enqueue [2, 3]).enqueue [3, 4]).currentLength = 3
      ∧ (((((Circular2DDataBuffer.mk0 3 2 1 : Circular2DDataBuffer ℤ).enqueue
            [0, 1]).enqueue [1, 2]).enqueue [2, 3]).enqueue [3, 4]).liveColumn 0 = [1, 2]
      ∧ (((((Circular2DDataBuffer.mk0 3 2 1 : Circular2DDataBuffer ℤ).enqueue
            [0, 1]).enqueue [1, 2]).enqueue [2, 3]).enqueue [3, 4]).liveColumn 1 = [2, 3]
      ∧ (((((Circular2DDataBuffer.mk0 3 2 1 : Circular2DDataBuffer ℤ).enqueue
            [0, 1]).enqueue [1, 2]).enqueue [2, 3]).enqueue [3, 4]).liveColumn 2 = [3, 4]) := by
  constructor
  · intro b d N len' hES hC hR hL hlen hN hlen'
    exact enqueue_spec b d N len' hES hC hR hL hlen hN hlen'
  · refine ⟨by decide, by decide, by decide, by decide, by decide⟩

/-- Witness for the amended C3: a 2×1 buffer receives one single-column
enqueue; the appended live column equals the input column. -/
theorem enqueue_whole_columns_witness :
    (((Circular2DDataBuffer.mk0 2 1 1 : Circular2DDataBuffer ℤ).enqueue [7]).currentLength = 1)
    ∧ (((Circular2DDataBuffer.mk0 2 1 1 : Circular2DDataBuffer ℤ).enqueue [7]).liveColumn 0
        = [7]) := by
  have h := enqueue_whole_columns.1 (Circular2DDataBuffer.mk0 2 1 1) [7] 1 1
    (by decide) (by decide) (by decide) (by decide) (by decide) (by decide) (by decide)
  refine ⟨h.1, ?_⟩
  have h3 := h.2.2 0 (by decide)
  rw [if_neg (by decide)] at h3
  rw [h3]
  decide

theorem resizeWidth_bufferData {α : Type} [Zero α] (b : Circular2DDataBuffer α)
    (newW : ℕ) (h : ¬ newW = b.numColumns) :
    (b.resizeWidth newW).bufferData
      = foldWrites (fun i => min b.currentLength newW - 1 - i)
          (fun i => subBlock b.bufferData
            (((b.startIndex + b.currentLength - 1 - i) % b.numColumns) * b.numRows)
            b.numRows)
          b.numRows (min b.currentLength newW)
          (List.replicate (newW * b.numRows * b.elementSize) 0) := by
  unfold Circular2DDataBuffer.resizeWidth foldWrites
  rw [if_neg h]

theorem resizeWidth_startIndex {α : Type} [Zero α] (b : Circular2DDataBuffer α)
    (newW : ℕ) (h : ¬ newW = b.numColumns) :
    (b.resizeWidth newW).startIndex = 0 := by
  unfold Circular2DDataBuffer.resizeWidth
  rw [if_neg h]

theorem resizeWidth_currentLength {α : Type} [Zero α] (b : Circular2DDataBuffer α)
    (newW : ℕ) (h : ¬ newW = b.numColumns) :
    (b.resizeWidth newW).currentLength = min b.currentLength newW := by
  unfold Circular2DDataBuffer.resizeWidth
  rw [if_neg h]
  dsimp only
  split <;> omega

theorem resizeWidth_numRows {α : Type} [Zero α] (b : Circular2DDataBuffer α)
    (newW : ℕ) (h : ¬ newW = b.numColumns) :
    (b.resizeWidth newW).numRows = b.numRows := by
  unfold Circular2DDataBuffer.resizeWidth
  rw [if_neg h]

theorem resizeWidth_numColumns {α : Type} [Zero α] (b : Circular2DDataBuffer α)
    (newW : ℕ) (h : ¬ newW = b.numColumns) :
    (b.resizeWidth newW).numColumns = newW := by
  unfold Circular2DDataBuffer.resizeWidth
  rw [if_neg h]

/-- Behaviour of `resizeWidth` to a genuinely different width: `startIndex`
resets, `currentLength` caps at the new width, and the most recent
`min(currentLength, newWidth)` columns survive in time order. -/
theorem resizeWidth_spec {α : Type} [Zero α] (b : Circular2DDataBuffer α)
    (newW k : ℕ) (hC : 0 < b.numColumns) (hL : b.currentLength ≤ b.numColumns)
    (hES : 1 ≤ b.elementSize)
    (hlen : b.bufferData.length = b.numColumns * b.numRows * b.elementSize)
    (hne : ¬ newW = b.numColumns) (hk : k = min b.currentLength newW) :
    (b.resizeWidth newW).startIndex = 0
    ∧ (b.resizeWidth newW).currentLength = k
    ∧ ∀ j < k, (b.resizeWidth newW).liveColumn j
        = b.liveColumn (b.currentLength - k + j) := by
  refine ⟨resizeWidth_startIndex b newW hne,
    by rw [resizeWidth_currentLength b newW hne, hk], ?_⟩
  intro j hj
  set L := b.currentLength with hLdef
  set C := b.numColumns with hCdef
  set R := b.numRows with hRdef
  set s := b.startIndex with hsdef
  have hjW : j < newW := by omega
  have hblkall : ∀ i < k,
      (subBlock b.bufferData (((s + L - 1 - i) % C) * R) R).length = R := by
    intro i _
    apply subBlock_length_of_le
    have hm : (s + L - 1 - i) % C < C := Nat.mod_lt _ hC
    have h1 : ((s + L - 1 - i) % C + 1) * R ≤ C * R :=
      Nat.mul_le_mul_right _ (by omega)
    have h2 : C * R * 1 ≤ C * R * b.elementSize :=
      Nat.mul_le_mul_left _ hES
    have h3 : ((s + L - 1 - i) % C + 1) * R = ((s + L - 1 - i) % C) * R + R := by
      ring
    omega
  have hbndall : ∀ i < k,
      (k - 1 - i) * R + R
        ≤ (List.replicate (newW * R * b.elementSize) (0 : α)).length := by
    intro i hi
    rw [List.length_replicate]
    have h1 : (k - 1 - i + 1) * R ≤ newW * R := Nat.mul_le_mul_right _ (by omega)
    have h2 : newW * R * 1 ≤ newW * R * b.elementSize := Nat.mul_le_mul_left _ hES
    have h3 : (k - 1 - i + 1) * R = (k - 1 - i) * R + R := by ring
    omega
  have hlive : (b.resizeWidth newW).liveColumn j
      = subBlock (foldWrites (fun i => k - 1 - i)
          (fun i => subBlock b.bufferData (((s + L - 1 - i) % C) * R) R) R k
          (List.replicate (newW * R * b.elementSize) 0))
        (((0 + j) % newW) * R) R := by
    unfold Circular2DDataBuffer.liveColumn Circular2DDataBuffer.column
    rw [resizeWidth_numRows b newW hne, resizeWidth_numColumns b newW hne,
      resizeWidth_bufferData b newW hne, resizeWidth_startIndex b newW hne, ← hk]
  rw [hlive, Nat.zero_add, Nat.mod_eq_of_lt hjW]
  have hi0 : k - 1 - j < k := by omega
  have htgt : k - 1 - (k - 1 - j) = j := by omega
  have hafter : ∀ i, k - 1 - j < i → i < k →
      k - 1 - i ≠ k - 1 - (k - 1 - j) := by
    intro i h1 h2
    omega
  have hhit := foldWrites_col_hit (fun i => k - 1 - i)
    (fun i => subBlock b.bufferData (((s + L - 1 - i) % C) * R) R) R
    (k - 1 - j) k (List.replicate (newW * R * b.elementSize) 0)
    hi0 hafter hblkall hbndall
  simp only [htgt] at hhit
  rw [hhit]
  unfold Circular2DDataBuffer.liveColumn Circular2DDataBuffer.column
  have harg : s + L - 1 - (k - 1 - j) = s + (L - k + j) := by omega
  rw [harg]

/-- Counterexample to claim C4 as stated: a reachable state with
`startIndex = 1` (width-2 buffer after three single-column enqueues) is
left completely unchanged by `resizeWidth(2)` — the same-width call returns
early and does not reset `startIndex` to `0`. -/
theorem resizeWidth_same_width_counterexample :
    (((((Circular2DDataBuffer.mk0 2 1 1 : Circular2DDataBuffer ℤ).enqueue
        [10]).enqueue [20]).enqueue [30]).resizeWidth 2).startIndex = 1
    ∧ ¬ (((((Circular2DDataBuffer.mk0 2 1 1 : Circular2DDataBuffer ℤ).enqueue
        [10]).enqueue [20]).enqueue [30]).resizeWidth 2).startIndex = 0 := by
  exact ⟨by decide, by decide⟩

/-- Claim C4, amended: for every well-formed buffer state and every
`newWidth ≠ numColumns`, `resizeWidth` preserves the most recent
`min(currentLength, newWidth)` columns in time order, discards older ones
and resets `startIndex` to 0; for `newWidth = numColumns` the call is a
no-op that leaves the whole state — `startIndex` included — unchanged. -/
theorem resizeWidth_preserves_recent :
    (∀ (b : Circular2DDataBuffer ℤ) (newW k : ℕ),
      0 < b.numColumns → b.currentLength ≤ b.numColumns → 1 ≤ b.elementSize →
      b.bufferData.length = b.numColumns * b.numRows * b.elementSize →
      ¬ newW = b.numColumns → k = min b.currentLength newW →
      (b.resizeWidth newW).startIndex = 0
      ∧ (b.resizeWidth newW).currentLength = k
      ∧ ∀ j < k, (b.resizeWidth newW).liveColumn j
          = b.liveColumn (b.currentLength - k + j))
    ∧ (∀ (b : Circular2DDataBuffer ℤ) (newW : ℕ),
        newW = b.numColumns → b.resizeWidth newW = b) := by
  constructor
  · intro b newW k hC hL hES hlen hne hk
    exact resizeWidth_spec b newW k hC hL hES hlen hne hk
  · intro b newW h
    unfold Circular2DDataBuffer.resizeWidth
    rw [if_pos h]

/-- Witness for the amended C4: shrinking the wrapped 2-column buffer
(live columns `[20]`, `[30]`) to width 1 keeps exactly the newest column
`[30]` at the front with `startIndex = 0`. -/
theorem resizeWidth_preserves_recent_witness :
    (((((Circular2DDataBuffer.mk0 2 1 1 : Circular2DDataBuffer ℤ).enqueue
        [10]).enqueue [20]).enqueue [30]).resizeWidth 1).startIndex = 0
    ∧ (((((Circular2DDataBuffer.mk0 2 1 1 : Circular2DDataBuffer ℤ).enqueue
        [10]).enqueue [20]).enqueue [30]).resizeWidth 1).currentLength = 1
    ∧ (((((Circular2DDataBuffer.mk0 2 1 1 : Circular2DDataBuffer ℤ).enqueue
        [10]).enqueue [20]).enqueue [30]).resizeWidth 1).liveColumn 0 = [30] := by
  have h := resizeWidth_preserves_recent.1
    ((((Circular2DDataBuffer.mk0 2 1 1 : Circular2DDataBuffer ℤ).enqueue
      [10]).enqueue [20]).enqueue [30]) 1 1
    (by decide) (by decide) (by decide) (by decide) (by decide) (by decide)
  refine ⟨h.1, h.2.1, ?_⟩
  have h3 := h.2.2 0 (by decide)
  rw [h3]
  decide

end SpecViz
